import Mathlib

/-!
Verification of the tesseract-trainer layout engine and training pipeline.

The definitions below are a shallow embedding of `tesseract_trainer/__init__.py`:

* `pil_coord_to_tesseract`, `word_fits_in_line`, `newline_fits_in_page` embed the
  module-level utility functions of the same names.
* `CharBox` records the data passed to `MultiPageTif._write_boxline` for one
  character (raw top-left-origin corners and the page index); `write_boxline`
  embeds `_write_boxline`'s formatting of that data into a boxfile line.
* `write_char` embeds the body of the inner `for char in word` loop of
  `MultiPageTif._fill_pages`; `line_break` embeds the word-fitting prologue of
  the outer `for word in self.text` loop; `process_word` is one outer-loop
  iteration; `fill_pages` embeds `_fill_pages` (including the final
  `_save_tif`); `py_split` embeds Python's `str.split(sep)`, so
  `splitSpace` is `text.split(' ')` as performed in `MultiPageTif.__init__`,
  and `layout` is the whole pipeline from the raw text to the final state.
* The layout functions take a `font` argument embedding `self.font.getsize`;
  the source calls it and then overwrites the result with the constants
  28 and `len(word) * 28`, which the embedding reproduces faithfully.
* `boxlines` renders the accumulated boxes exactly as the source's
  `self.boxlines` list of strings; `py_str_join` embeds `str.join`;
  `tif_file_stem` and `trainer_file_stem` embed the two filename-stem
  computations in `MultiPageTif.__init__` and `TesseractTrainer.__init__`.
* `trainer_init` embeds the validation sequence of `TesseractTrainer.__init__`
  with the filesystem abstracted into boolean/string parameters;
  `dictionary_data_cmds` embeds `_dictionary_data` and `clean_removes` the
  list of paths `clean` deletes.
-/

/-- One entry of data handed to `MultiPageTif._write_boxline`: the character,
its raw (top-left-origin) bounding-box corners, and the page index. -/
structure CharBox where
  ch : Char
  x0 : Int
  y0 : Int
  x1 : Int
  y1 : Int
  page : Nat
deriving DecidableEq, Repr

/-- The mutable state of `MultiPageTif._fill_pages`: current page index, the
cursor position, the accumulated box data (source: `self.boxlines`), and the
indices of the pages already saved via `_save_tif`. -/
structure LayoutState where
  page_nb : Nat
  x_pos : Int
  y_pos : Int
  boxes : List CharBox
  saved : List Nat
deriving DecidableEq, Repr

/-- Source `word_fits_in_line(pagewidth, x_pos, wordsize_w)`:
`(pagewidth - x_pos - wordsize_w) > 0`. -/
def word_fits_in_line (pagewidth x_pos wordsize_w : Int) : Bool :=
  decide (pagewidth - x_pos - wordsize_w > 0)

/-- Source `newline_fits_in_page(pageheight, y_pos, wordsize_h)`:
`(pageheight - y_pos - (2 * wordsize_h)) > 0`. -/
def newline_fits_in_page (pageheight y_pos wordsize_h : Int) : Bool :=
  decide (pageheight - y_pos - 2 * wordsize_h > 0)

/-- Source `pil_coord_to_tesseract(pil_x, pil_y, tif_h)`: `(pil_x, tif_h - pil_y)`. -/
def pil_coord_to_tesseract (pil_x pil_y tif_h : Int) : Int × Int :=
  (pil_x, tif_h - pil_y)

/-- One iteration of the `for char in word` loop in `_fill_pages`: the measured
glyph size is discarded and overwritten by `char_w = char_h = 28`; the box
corners are `(x_pos, y_pos)` and `(x_pos + 28, y_pos + 28)`; a box is recorded
unless the character is `' '`; the cursor advances by `char_w`. -/
def write_char (font : List Char → Int × Int) (st : LayoutState) (c : Char) :
    LayoutState :=
  let _measured := font [c]
  let char_w : Int := 28
  let char_h : Int := 28
  let b : CharBox :=
    ⟨c, st.x_pos, st.y_pos, st.x_pos + char_w, st.y_pos + char_h, st.page_nb⟩
  { st with
    boxes := if c = ' ' then st.boxes else st.boxes ++ [b]
    x_pos := st.x_pos + char_w }

/-- The word-fitting prologue of one `for word in self.text` iteration in
`_fill_pages`: the word gets a trailing space, its measured size is discarded
and overwritten by `wordsize_w = len(word) * 28`, `wordsize_h = 28`; if the
word does not fit the line, either a newline or (when the newline does not fit
the page) a page flush plus fresh page happens. -/
def line_break (font : List Char → Int × Int) (W H start_x start_y : Int)
    (w : List Char) (st : LayoutState) : LayoutState :=
  let word := w ++ [' ']
  let _measured := font word
  let wordsize_w : Int := (word.length : Int) * 28
  let wordsize_h : Int := 28
  if ¬ word_fits_in_line W st.x_pos wordsize_w then
    if newline_fits_in_page H st.y_pos wordsize_h then
      { st with x_pos := start_x, y_pos := st.y_pos + wordsize_h }
    else
      { st with
        x_pos := start_x
        y_pos := start_y
        page_nb := st.page_nb + 1
        saved := st.saved ++ [st.page_nb] }
  else st

/-- One full iteration of the `for word in self.text` loop of `_fill_pages`:
the fitting prologue followed by writing every character of `word + ' '`. -/
def process_word (font : List Char → Int × Int) (W H start_x start_y : Int)
    (st : LayoutState) (w : List Char) : LayoutState :=
  (w ++ [' ']).foldl (write_char font) (line_break font W H start_x start_y w st)

/-- `MultiPageTif._fill_pages`: iterate over the word list starting from page 0
and cursor `(start_x, start_y)`, then save the last page. -/
def fill_pages (font : List Char → Int × Int) (W H start_x start_y : Int)
    (words : List (List Char)) : LayoutState :=
  let st := words.foldl (process_word font W H start_x start_y)
    ⟨0, start_x, start_y, [], []⟩
  { st with saved := st.saved ++ [st.page_nb] }

/-- Python's `str.split(sep)` for a one-character separator recognised by `p`:
splits at every separator occurrence, keeping empty fragments, so the result
always has one more fragment than there are separators. -/
def py_split (p : Char → Bool) : List Char → List (List Char)
  | [] => [[]]
  | c :: rest =>
    match py_split p rest with
    | [] => [[c]]
    | w :: ws => if p c then [] :: w :: ws else (c :: w) :: ws

/-- `text.split(' ')` as performed in `MultiPageTif.__init__`. -/
def splitSpace (text : List Char) : List (List Char) :=
  py_split (fun c => c == ' ') text

/-- The whole layout pipeline: split the text on spaces as `MultiPageTif.__init__`
does, then run `_fill_pages`. -/
def layout (font : List Char → Int × Int) (W H start_x start_y : Int)
    (text : List Char) : LayoutState :=
  fill_pages font W H start_x start_y (splitSpace text)

/-- `MultiPageTif._write_boxline`: map both raw corners through
`pil_coord_to_tesseract` and format
`'%s %d %d %d %d %d' % (char, tess_x0, tess_y1, tess_x1, tess_y0, page_nb)`. -/
def write_boxline (c : Char) (x0 y0 x1 y1 H : Int) (page : Nat) : String :=
  let t0 := pil_coord_to_tesseract x0 y0 H
  let t1 := pil_coord_to_tesseract x1 y1 H
  toString c ++ " " ++ toString t0.1 ++ " " ++ toString t1.2 ++ " " ++
    toString t1.1 ++ " " ++ toString t0.2 ++ " " ++ toString page

/-- The source's `self.boxlines` list: each recorded character box rendered by
`_write_boxline`, in emission order. -/
def boxlines (H : Int) (st : LayoutState) : List String :=
  st.boxes.map (fun b => write_boxline b.ch b.x0 b.y0 b.x1 b.y1 H b.page)

/-- Modelled from the spec: a boxfile line per the box-annotation format
section — the character, then the character's bounding-box corners expressed in
bottom-left-origin page space (both top-left-origin corners pushed through the
coordinate mapper, then assembled lower-left corner first, upper-right corner
second), then the page index, all space-separated. -/
def spec_boxline (c : Char) (x0 y0 x1 y1 H : Int) (page : Nat) : String :=
  let m0 := pil_coord_to_tesseract x0 y0 H
  let m1 := pil_coord_to_tesseract x1 y1 H
  toString c ++ " " ++ toString (min m0.1 m1.1) ++ " " ++
    toString (min m0.2 m1.2) ++ " " ++ toString (max m0.1 m1.1) ++ " " ++
    toString (max m0.2 m1.2) ++ " " ++ toString page

/-- Python's `sep.join(parts)`: parts interleaved with the separator. -/
def py_str_join (sep : String) : List String → String
  | [] => ""
  | [s] => s
  | s :: s2 :: rest => s ++ sep ++ py_str_join sep (s2 :: rest)

/-- The filename stem computed in `MultiPageTif.__init__`:
`".".join([dictionary_name, font_name, "exp" + str(exp_number)])`. -/
def tif_file_stem (dictionary_name font_name : String) (exp_number : Int) :
    String :=
  py_str_join "." [dictionary_name, font_name, "exp" ++ toString exp_number]

/-- The filename stem computed in `TesseractTrainer.__init__`:
`'%s.%s.exp%s' % (dictionary_name, font_name, str(exp_number))`. -/
def trainer_file_stem (dictionary_name font_name : String) (exp_number : Int) :
    String :=
  dictionary_name ++ "." ++ font_name ++ ".exp" ++ toString exp_number

/-- Python's no-argument `str.split()`: split on whitespace runs, dropping
empty fragments. -/
def py_split_ws (l : List Char) : List (List Char) :=
  (py_split (fun c => c.isWhitespace) l).filter (fun w => !w.isEmpty)

/-- The validation sequence of `TesseractTrainer.__init__`, with the
filesystem abstracted: `font_path_exists` and `tessdata_exists` stand for the
two `exists(...)` probes and `font_properties_content` for `fp.read()`.  The
checks run in source order; the first failing one raises `SystemExit` with its
message, modelled as `Except.error`. -/
def trainer_init (font_name font_path font_properties_content
    font_properties_path tessdata_path : String)
    (font_path_exists tessdata_exists : Bool) : Except String Unit :=
  if font_name.data.contains ' ' then
    Except.error "The --font-name / -F argument must not contain any spaces. Aborting."
  else if !font_path_exists then
    Except.error ("The " ++ font_path ++ " file does not exist. Aborting.")
  else if !((py_split_ws font_properties_content.data).contains font_name.data) then
    Except.error ("The font properties of " ++ font_name ++
      " have not been defined in " ++ font_properties_path ++ ". Aborting.")
  else if !tessdata_exists then
    Except.error ("The " ++ tessdata_path ++ " directory does not exist. Aborting.")
  else Except.ok ()

/-- Python truthiness of the optional `word_list` argument: `None` and the
empty string are falsy. -/
def py_truthy : Option String → Bool
  | none => false
  | some s => !(s == "")

/-- `TesseractTrainer._dictionary_data`: the shell commands it issues — one
`wordlist2dawg` invocation when `self.word_list` is truthy, none otherwise. -/
def dictionary_data_cmds (word_list : Option String) (dictionary_name : String) :
    List String :=
  if py_truthy word_list then
    ["wordlist2dawg " ++ word_list.getD "" ++ " " ++ dictionary_name ++
      ".freq-dawg " ++ dictionary_name ++ ".unicharset"]
  else []

/-- `TesseractTrainer.clean`: the list of paths passed to `os.remove`, in
source order; `{dictionary_name}.freq-dawg` is included only when
`self.word_list` is truthy. -/
def clean_removes (stem dictionary_name : String) (word_list : Option String) :
    List String :=
  [stem ++ ".tr", stem ++ ".txt", stem ++ ".box",
   dictionary_name ++ ".inttemp", dictionary_name ++ ".Microfeat",
   dictionary_name ++ ".normproto", dictionary_name ++ ".pffmtable",
   dictionary_name ++ ".unicharset"] ++
  (if py_truthy word_list then [dictionary_name ++ ".freq-dawg"] else []) ++
  ["mfunicharset"]

/-- The invariant maintained by the layout loop: every recorded box is 28×28
with its page index at most the current page index, and the recorded page
indices are non-decreasing in emission order. -/
def LayoutInv (st : LayoutState) : Prop :=
  (∀ b ∈ st.boxes, b.x1 = b.x0 + 28 ∧ b.y1 = b.y0 + 28 ∧ b.page ≤ st.page_nb) ∧
  List.Pairwise (· ≤ ·) (st.boxes.map CharBox.page)

theorem string_append_assoc (a b c : String) : a ++ b ++ c = a ++ (b ++ c) := by
  have h : (a ++ b ++ c).data = (a ++ (b ++ c)).data := by
    show a.data ++ b.data ++ c.data = a.data ++ (b.data ++ c.data)
    exact List.append_assoc _ _ _
  exact congrArg String.mk h

theorem write_char_eq (font : List Char → Int × Int) (st : LayoutState)
    (c : Char) :
    write_char font st c =
      { st with
        boxes := st.boxes ++ (if c = ' ' then [] else
          [⟨c, st.x_pos, st.y_pos, st.x_pos + 28, st.y_pos + 28, st.page_nb⟩])
        x_pos := st.x_pos + 28 } := by
  unfold write_char
  by_cases h : c = ' ' <;> simp [h]

theorem line_break_boxes (font : List Char → Int × Int)
    (W H start_x start_y : Int) (w : List Char) (st : LayoutState) :
    (line_break font W H start_x start_y w st).boxes = st.boxes := by
  simp only [line_break]
  split
  · split <;> rfl
  · rfl

theorem line_break_of_fits (font : List Char → Int × Int)
    (W H start_x start_y : Int) (w : List Char) (st : LayoutState)
    (hfit : word_fits_in_line W st.x_pos (((w ++ [' ']).length : Int) * 28) = true) :
    line_break font W H start_x start_y w st = st := by
  have hfit' : word_fits_in_line W st.x_pos ((w.length + 1 : Int) * 28) = true := by
    simpa using hfit
  simp [line_break, hfit']

theorem charfold_boxes_len (font : List Char → Int × Int) :
    ∀ (w : List Char) (st : LayoutState),
      ((w.foldl (write_char font) st).boxes).length =
        st.boxes.length + (w.filter (fun c => c != ' ')).length := by
  intro w
  induction w with
  | nil => intro st; simp
  | cons c w ih =>
    intro st
    simp only [List.foldl_cons, List.filter_cons]
    rw [ih, write_char_eq]
    by_cases h : c = ' ' <;> simp [h] <;> omega

theorem charfold_boxes_suffix (font : List Char → Int × Int) :
    ∀ (w : List Char) (st : LayoutState),
      ∃ l, ((w.foldl (write_char font) st).boxes) = st.boxes ++ l := by
  intro w
  induction w with
  | nil => intro st; exact ⟨[], by simp⟩
  | cons c w ih =>
    intro st
    obtain ⟨l, hl⟩ := ih (write_char font st c)
    refine ⟨(if c = ' ' then [] else
      [⟨c, st.x_pos, st.y_pos, st.x_pos + 28, st.y_pos + 28, st.page_nb⟩]) ++ l, ?_⟩
    simp only [List.foldl_cons]
    rw [hl, write_char_eq]
    simp [List.append_assoc]

theorem process_word_boxes_len (font : List Char → Int × Int)
    (W H start_x start_y : Int) (st : LayoutState) (w : List Char) :
    ((process_word font W H start_x start_y st w).boxes).length =
      st.boxes.length + (w.filter (fun c => c != ' ')).length := by
  unfold process_word
  rw [charfold_boxes_len, line_break_boxes]
  simp [List.filter_append]

theorem process_word_boxes_suffix (font : List Char → Int × Int)
    (W H start_x start_y : Int) (st : LayoutState) (w : List Char) :
    ∃ l, ((process_word font W H start_x start_y st w).boxes) = st.boxes ++ l := by
  unfold process_word
  obtain ⟨l, hl⟩ := charfold_boxes_suffix font (w ++ [' '])
    (line_break font W H start_x start_y w st)
  exact ⟨l, by rw [hl, line_break_boxes]⟩

theorem wordfold_boxes_len (font : List Char → Int × Int)
    (W H start_x start_y : Int) :
    ∀ (ws : List (List Char)) (st : LayoutState),
      ((ws.foldl (process_word font W H start_x start_y) st).boxes).length =
        st.boxes.length +
          (ws.map (fun w => (w.filter (fun c => c != ' ')).length)).sum := by
  intro ws
  induction ws with
  | nil => intro st; simp
  | cons w ws ih =>
    intro st
    simp only [List.foldl_cons, List.map_cons, List.sum_cons]
    rw [ih, process_word_boxes_len]
    omega

theorem wordfold_boxes_suffix (font : List Char → Int × Int)
    (W H start_x start_y : Int) :
    ∀ (ws : List (List Char)) (st : LayoutState),
      ∃ l, ((ws.foldl (process_word font W H start_x start_y) st).boxes) =
        st.boxes ++ l := by
  intro ws
  induction ws with
  | nil => intro st; exact ⟨[], by simp⟩
  | cons w ws ih =>
    intro st
    obtain ⟨l1, h1⟩ := process_word_boxes_suffix font W H start_x start_y st w
    obtain ⟨l2, h2⟩ := ih (process_word font W H start_x start_y st w)
    exact ⟨l1 ++ l2, by simp [List.foldl_cons, h2, h1, List.append_assoc]⟩

theorem py_split_ne_nil (p : Char → Bool) : ∀ (l : List Char), py_split p l ≠ [] := by
  intro l
  cases l with
  | nil => simp [py_split]
  | cons c rest =>
    unfold py_split
    cases h : py_split p rest with
    | nil => simp
    | cons w ws => by_cases hc : p c <;> simp [hc]

theorem py_split_filter_sum (p : Char → Bool) : ∀ (l : List Char),
    ((py_split p l).map (fun w => (w.filter (fun c => !(p c))).length)).sum =
      (l.filter (fun c => !(p c))).length := by
  intro l
  induction l with
  | nil => simp [py_split]
  | cons c rest ih =>
    cases h : py_split p rest with
    | nil => exact absurd h (py_split_ne_nil p rest)
    | cons w ws =>
      rw [h] at ih
      by_cases hc : p c
      · simp [py_split, h, hc, List.filter_cons] at ih ⊢
        omega
      · simp [py_split, h, hc, List.filter_cons] at ih ⊢
        omega

theorem layout_box_count (font : List Char → Int × Int) (W H start_x start_y : Int)
    (text : List Char) :
    (layout font W H start_x start_y text).boxes.length =
      (text.filter (fun c => c != ' ')).length := by
  show (((splitSpace text).foldl (process_word font W H start_x start_y)
    ⟨0, start_x, start_y, [], []⟩).boxes).length = _
  rw [wordfold_boxes_len]
  have h := py_split_filter_sum (fun c => c == ' ') text
  have hfun : (fun c => !((fun c => c == ' ') c)) = (fun c => c != ' ') := rfl
  rw [hfun] at h
  simpa [splitSpace] using h

theorem inv_write_char (font : List Char → Int × Int) (st : LayoutState)
    (c : Char) (h : LayoutInv st) : LayoutInv (write_char font st c) := by
  obtain ⟨h1, h2⟩ := h
  rw [write_char_eq]
  constructor
  · intro b hb
    simp only [List.mem_append] at hb
    rcases hb with hb | hb
    · exact h1 b hb
    · by_cases hc : c = ' '
      · simp [hc] at hb
      · simp only [hc, if_neg, List.mem_singleton, if_false] at hb
        subst hb
        simp [hc]
  · simp only [List.map_append]
    rw [List.pairwise_append]
    refine ⟨h2, ?_, ?_⟩
    · by_cases hc : c = ' ' <;> simp [hc]
    · intro a ha b hb
      obtain ⟨ba, hba, rfl⟩ := List.mem_map.mp ha
      by_cases hc : c = ' '
      · simp [hc] at hb
      · simp only [hc, if_neg, if_false, List.map_cons, List.map_nil,
          List.mem_singleton] at hb
        subst hb
        exact (h1 ba hba).2.2

theorem inv_line_break (font : List Char → Int × Int)
    (W H start_x start_y : Int) (w : List Char) (st : LayoutState)
    (h : LayoutInv st) : LayoutInv (line_break font W H start_x start_y w st) := by
  obtain ⟨h1, h2⟩ := h
  simp only [line_break]
  split
  · split
    · exact ⟨fun b hb => h1 b hb, h2⟩
    · refine ⟨fun b hb => ?_, h2⟩
      obtain ⟨hx, hy, hp⟩ := h1 b hb
      exact ⟨hx, hy, Nat.le_succ_of_le hp⟩
  · exact ⟨h1, h2⟩

theorem inv_charfold (font : List Char → Int × Int) :
    ∀ (w : List Char) (st : LayoutState),
      LayoutInv st → LayoutInv (w.foldl (write_char font) st) := by
  intro w
  induction w with
  | nil => intro st h; exact h
  | cons c w ih =>
    intro st h
    exact ih (write_char font st c) (inv_write_char font st c h)

theorem inv_process_word (font : List Char → Int × Int)
    (W H start_x start_y : Int) (st : LayoutState) (w : List Char)
    (h : LayoutInv st) :
    LayoutInv (process_word font W H start_x start_y st w) :=
  inv_charfold font (w ++ [' ']) _
    (inv_line_break font W H start_x start_y w st h)

theorem inv_wordfold (font : List Char → Int × Int)
    (W H start_x start_y : Int) :
    ∀ (ws : List (List Char)) (st : LayoutState),
      LayoutInv st → LayoutInv (ws.foldl (process_word font W H start_x start_y) st) := by
  intro ws
  induction ws with
  | nil => intro st h; exact h
  | cons w ws ih =>
    intro st h
    exact ih _ (inv_process_word font W H start_x start_y st w h)

theorem inv_layout (font : List Char → Int × Int) (W H start_x start_y : Int)
    (text : List Char) : LayoutInv (layout font W H start_x start_y text) := by
  have h : LayoutInv (((splitSpace text).foldl
      (process_word font W H start_x start_y) ⟨0, start_x, start_y, [], []⟩)) :=
    inv_wordfold font W H start_x start_y (splitSpace text) _ ⟨by simp, by simp⟩
  exact h

theorem py_split_no_sep (p : Char → Bool) : ∀ (l : List Char) (w : List Char),
    w ∈ py_split p l → ∀ c ∈ w, p c = false := by
  intro l
  induction l with
  | nil =>
    intro w hw c hc
    simp [py_split] at hw
    subst hw
    simp at hc
  | cons a rest ih =>
    intro w hw c hc
    cases h : py_split p rest with
    | nil => exact absurd h (py_split_ne_nil p rest)
    | cons w0 ws =>
      unfold py_split at hw
      rw [h] at hw
      by_cases hp : p a
      · simp only [hp, if_pos] at hw
        rcases List.mem_cons.mp hw with rfl | hw'
        · simp at hc
        · exact ih w (h ▸ hw') c hc
      · have hp' : p a = false := by simpa using hp
        simp only [hp', Bool.false_eq_true, if_false] at hw
        rcases List.mem_cons.mp hw with rfl | hw'
        · rcases List.mem_cons.mp hc with rfl | hc'
          · exact hp'
          · exact ih w0 (h ▸ List.mem_cons_self w0 ws) c hc'
        · exact ih w (h ▸ List.mem_cons.mpr (Or.inr hw')) c hc

theorem write_boxline_eq_spec (c : Char) (x0 y0 H : Int) (page : Nat)
    (x1 y1 : Int) (hx : x1 = x0 + 28) (hy : y1 = y0 + 28) :
    write_boxline c x0 y0 x1 y1 H page = spec_boxline c x0 y0 x1 y1 H page := by
  subst hx
  subst hy
  have h1 : min x0 (x0 + 28) = x0 := min_eq_left (by omega)
  have h2 : min (H - y0) (H - (y0 + 28)) = H - (y0 + 28) := min_eq_right (by omega)
  have h3 : max x0 (x0 + 28) = x0 + 28 := max_eq_right (by omega)
  have h4 : max (H - y0) (H - (y0 + 28)) = H - y0 := max_eq_left (by omega)
  simp [write_boxline, spec_boxline, pil_coord_to_tesseract, h1, h2, h3, h4]

/-- C1 (counterexample): the claim counts non-whitespace characters, but the
layout engine excludes only the space character `' '`: the one-character text
consisting of a tab produces one box annotation although the text has zero
non-whitespace characters. -/
theorem C1_nonwhitespace_counterexample :
    (layout (fun _ => (0, 0)) 1000 1000 20 20 ['\t']).boxes.length ≠
      (['\t'].filter (fun c => !c.isWhitespace)).length := by
  decide

/-- C1 (amended): for every input text (and any geometry and font-measure
capability), the number of box annotations accumulated by the layout engine
equals the number of characters of the text that differ from the space
character `' '`; every such character yields exactly one annotation. -/
theorem C1_nonspace_count (font : List Char → Int × Int)
    (W H start_x start_y : Int) (text : List Char) :
    (layout font W H start_x start_y text).boxes.length =
      (text.filter (fun c => c != ' ')).length :=
  layout_box_count font W H start_x start_y text

/-- C2: a word (always suffixed with one space, at 28 px per character) fails
to fit the current line exactly when `W - x - word_width <= 0`; on such
failure, if `H - y - 2*28 > 0` the cursor moves to `(x0, y + 28)` on the same
page, and otherwise the current page is flushed, the page index increments,
and the cursor resets to `(x0, y0)` on a fresh page. -/
theorem C2_line_and_page_break (font : List Char → Int × Int)
    (W H start_x start_y : Int) (w : List Char) (st : LayoutState) :
    (word_fits_in_line W st.x_pos (((w ++ [' ']).length : Int) * 28) = false ↔
      W - st.x_pos - ((w ++ [' ']).length : Int) * 28 ≤ 0) ∧
    (word_fits_in_line W st.x_pos (((w ++ [' ']).length : Int) * 28) = false →
      ((H - st.y_pos - 2 * 28 > 0 →
        line_break font W H start_x start_y w st =
          { st with x_pos := start_x, y_pos := st.y_pos + 28 }) ∧
       (¬ H - st.y_pos - 2 * 28 > 0 →
        line_break font W H start_x start_y w st =
          { st with
            x_pos := start_x
            y_pos := start_y
            page_nb := st.page_nb + 1
            saved := st.saved ++ [st.page_nb] }))) := by
  refine ⟨?_, fun hfail => ⟨fun hnl => ?_, fun hnl => ?_⟩⟩
  · simp only [word_fits_in_line, decide_eq_false_iff_not]
    omega
  · have hfail' : word_fits_in_line W st.x_pos ((w.length + 1 : Int) * 28) = false := by
      simpa using hfail
    have hnl' : newline_fits_in_page H st.y_pos 28 = true := by
      simp only [newline_fits_in_page, decide_eq_true_eq]
      omega
    simp [line_break, hfail', hnl']
  · have hfail' : word_fits_in_line W st.x_pos ((w.length + 1 : Int) * 28) = false := by
      simpa using hfail
    have hnl' : newline_fits_in_page H st.y_pos 28 = false := by
      simp only [newline_fits_in_page, decide_eq_false_iff_not]
      omega
    simp [line_break, hfail', hnl']

/-- C2 (witness): with `W = 100`, `H = 50`, start `(20, 20)` and the word
`"AAAA"`, the word does not fit and the page-break branch produces page 1 with
the cursor back at `(20, 20)` and page 0 flushed. -/
theorem C2_line_and_page_break_witness :
    word_fits_in_line 100 20 ((((['A', 'A', 'A', 'A'] ++ [' ']).length : Nat) : Int) * 28) = false ∧
    line_break (fun _ => (0, 0)) 100 50 20 20 ['A', 'A', 'A', 'A']
        ⟨0, 20, 20, [], []⟩ = ⟨1, 20, 20, [], [0]⟩ := by
  refine ⟨by decide, ?_⟩
  have h := (C2_line_and_page_break (fun _ => (0, 0)) 100 50 20 20
    ['A', 'A', 'A', 'A'] ⟨0, 20, 20, [], []⟩).2 (by decide)
  exact h.2 (by decide)

/-- C3: the coordinate mapper returns exactly `(x, H - y)`, is a total
function, and is its own inverse. -/
theorem C3_coordinate_map (x y H : Int) :
    pil_coord_to_tesseract x y H = (x, H - y) ∧
    pil_coord_to_tesseract (pil_coord_to_tesseract x y H).1
      (pil_coord_to_tesseract x y H).2 H = (x, y) := by
  refine ⟨rfl, ?_⟩
  simp [pil_coord_to_tesseract]

/-- C5 (counterexample): with page geometry `W = 100`, `H = 50`, start
`(20, 20)` and text `"AAAA"`, the first word already overflows both the line
and the page, so the page index is incremented before any annotation is
emitted: the emitted page indices are non-empty but start at 1, not 0. -/
theorem C5_first_page_counterexample :
    (layout (fun _ => (0, 0)) 100 50 20 20 ['A', 'A', 'A', 'A']).boxes ≠ [] ∧
    ((layout (fun _ => (0, 0)) 100 50 20 20 ['A', 'A', 'A', 'A']).boxes.map
      CharBox.page).head? ≠ some 0 := by
  decide

/-- C5 (amended): the page indices recorded in the emitted annotations, read
in emission order, are non-decreasing for every text and geometry; they start
at 0 whenever no page overflow happens before the first annotation — in
particular whenever the text's first word is nonempty and fits on the first
line. -/
theorem C5_page_monotone (font : List Char → Int × Int) (W H sx sy : Int)
    (text : List Char) :
    List.Pairwise (· ≤ ·) ((layout font W H sx sy text).boxes.map CharBox.page) ∧
    (∀ w rest, splitSpace text = w :: rest → w ≠ [] →
      word_fits_in_line W sx (((w ++ [' ']).length : Int) * 28) = true →
      ((layout font W H sx sy text).boxes.map CharBox.page).head? = some 0) := by
  constructor
  · exact (inv_layout font W H sx sy text).2
  · intro w rest hsplit hne hfit
    have hboxes : (layout font W H sx sy text).boxes =
        ((w :: rest).foldl (process_word font W H sx sy)
          ⟨0, sx, sy, [], []⟩).boxes := by
      show ((splitSpace text).foldl (process_word font W H sx sy)
        ⟨0, sx, sy, [], []⟩).boxes = _
      rw [hsplit]
    obtain ⟨c, w', rfl⟩ := List.exists_cons_of_ne_nil hne
    have hcmem : (c :: w') ∈ splitSpace text := by
      rw [hsplit]; exact List.mem_cons_self _ _
    have hc : ¬ (c = ' ') := by
      have := py_split_no_sep _ text _ hcmem c (List.mem_cons_self _ _)
      simpa using this
    rw [hboxes]
    simp only [List.foldl_cons]
    obtain ⟨l2, hl2⟩ := wordfold_boxes_suffix font W H sx sy rest
      (process_word font W H sx sy ⟨0, sx, sy, [], []⟩ (c :: w'))
    rw [hl2]
    have hlb : line_break font W H sx sy (c :: w') ⟨0, sx, sy, [], []⟩ =
        ⟨0, sx, sy, [], []⟩ :=
      line_break_of_fits font W H sx sy (c :: w') ⟨0, sx, sy, [], []⟩ hfit
    have hpw : ∃ l1, (process_word font W H sx sy ⟨0, sx, sy, [], []⟩
        (c :: w')).boxes = (⟨c, sx, sy, sx + 28, sy + 28, 0⟩ : CharBox) :: l1 := by
      unfold process_word
      rw [hlb]
      simp only [List.cons_append, List.foldl_cons]
      obtain ⟨l1, h1⟩ := charfold_boxes_suffix font (w' ++ [' '])
        (write_char font ⟨0, sx, sy, [], []⟩ c)
      refine ⟨l1, ?_⟩
      rw [h1, write_char_eq]
      simp [hc]
    obtain ⟨l1, h1⟩ := hpw
    rw [h1]
    simp

/-- C5 (witness): for the text `"AB"` under the program's page geometry, the
recorded page indices are non-decreasing and start at 0. -/
theorem C5_page_monotone_witness :
    List.Pairwise (· ≤ ·)
      ((layout (fun _ => (28, 28)) 3500 1024 20 20 ['A', 'B']).boxes.map
        CharBox.page) ∧
    ((layout (fun _ => (28, 28)) 3500 1024 20 20 ['A', 'B']).boxes.map
      CharBox.page).head? = some 0 :=
  ⟨(C5_page_monotone (fun _ => (28, 28)) 3500 1024 20 20 ['A', 'B']).1,
   (C5_page_monotone (fun _ => (28, 28)) 3500 1024 20 20 ['A', 'B']).2
     ['A', 'B'] [] rfl (by decide) (by decide)⟩

/-- C6: for the text `"AB CD"` with `W = H = 1000`, 28×28 glyphs and start
`(20, 20)`, the layout produces exactly one page (index 0) and exactly the 4
annotations `A, B, C, D` (the space excluded), each 28 wide and 28 high, with
left x-coordinates 20, 48, 104, 132, and the tesseract y-coordinates are
`1000 - y` of the raw top-left-origin values. -/
theorem C6_example_scenario :
    (layout (fun _ => (28, 28)) 1000 1000 20 20 ['A', 'B', ' ', 'C', 'D']).saved
      = [0] ∧
    (layout (fun _ => (28, 28)) 1000 1000 20 20 ['A', 'B', ' ', 'C', 'D']).boxes
      = [⟨'A', 20, 20, 48, 48, 0⟩, ⟨'B', 48, 20, 76, 48, 0⟩,
         ⟨'C', 104, 20, 132, 48, 0⟩, ⟨'D', 132, 20, 160, 48, 0⟩] ∧
    ((layout (fun _ => (28, 28)) 1000 1000 20 20 ['A', 'B', ' ', 'C', 'D']).boxes.map
      (fun b => (b.x1 - b.x0, b.y1 - b.y0))) = [(28, 28), (28, 28), (28, 28), (28, 28)] ∧
    ((layout (fun _ => (28, 28)) 1000 1000 20 20 ['A', 'B', ' ', 'C', 'D']).boxes.map
      (fun b => (pil_coord_to_tesseract b.x0 b.y0 1000).2)) = [980, 980, 980, 980] ∧
    ((layout (fun _ => (28, 28)) 1000 1000 20 20 ['A', 'B', ' ', 'C', 'D']).boxes.map
      (fun b => (pil_coord_to_tesseract b.x1 b.y1 1000).2)) = [952, 952, 952, 952] := by
  decide

/-- C10: the layout result is independent of the font-measure capability (the
engine overwrites every measured size with the constants 28 and
`len(word) * 28`); every recorded bounding box is exactly 28×28, and the
cursor advances exactly 28 pixels per character written. -/
theorem C10_fixed_metrics (f g : List Char → Int × Int) (W H sx sy : Int)
    (text : List Char) :
    layout f W H sx sy text = layout g W H sx sy text ∧
    (∀ b ∈ (layout f W H sx sy text).boxes,
      b.x1 = b.x0 + 28 ∧ b.y1 = b.y0 + 28) ∧
    (∀ (st : LayoutState) (c : Char),
      (write_char f st c).x_pos = st.x_pos + 28) := by
  refine ⟨?_, ?_, fun st c => rfl⟩
  · have hpw : process_word f W H sx sy = process_word g W H sx sy := by
      funext st w
      unfold process_word
      have hw : write_char f = write_char g := by funext st' c'; rfl
      have hl : line_break f W H sx sy w st = line_break g W H sx sy w st := rfl
      rw [hw, hl]
    unfold layout fill_pages
    rw [hpw]
  · intro b hb
    obtain ⟨hx, hy, -⟩ := (inv_layout f W H sx sy text).1 b hb
    exact ⟨hx, hy⟩

/-- C10 (witness): two different font-measure capabilities give the same
layout for `"A"`, and the box recorded for `'A'` is 28×28. -/
theorem C10_fixed_metrics_witness :
    layout (fun _ => (10, 12)) 1000 1000 20 20 ['A'] =
      layout (fun _ => (99, 7)) 1000 1000 20 20 ['A'] ∧
    ((⟨'A', 20, 20, 48, 48, 0⟩ : CharBox).x1 =
      (⟨'A', 20, 20, 48, 48, 0⟩ : CharBox).x0 + 28 ∧
     (⟨'A', 20, 20, 48, 48, 0⟩ : CharBox).y1 =
      (⟨'A', 20, 20, 48, 48, 0⟩ : CharBox).y0 + 28) :=
  ⟨(C10_fixed_metrics (fun _ => (10, 12)) (fun _ => (99, 7)) 1000 1000 20 20
      ['A']).1,
   (C10_fixed_metrics (fun _ => (10, 12)) (fun _ => (99, 7)) 1000 1000 20 20
      ['A']).2.1 ⟨'A', 20, 20, 48, 48, 0⟩ (by decide)⟩

/-- C4 (counterexample): the claim says one line per non-whitespace character,
but the engine writes a line for every character other than `' '`: the text
consisting of one newline character produces one boxfile line although it has
zero non-whitespace characters. -/
theorem C4_whitespace_line_counterexample :
    (boxlines 1000 (layout (fun _ => (0, 0)) 1000 1000 20 20 ['\n'])).length ≠
      (['\n'].filter (fun c => !c.isWhitespace)).length := by
  decide

/-- C4 (amended): the box file holds one line per non-space character (`' '`
excluded), and every line is the rendering of one recorded character box:
`"<char> <x0> <y0> <x1> <y1> <page>"` with space-separated fields where the
four coordinates are the box's corners in bottom-left-origin page space,
obtained by mapping both top-left-origin corners through the coordinate
mapper with the page height. -/
theorem C4_boxline_format (font : List Char → Int × Int) (W H sx sy : Int)
    (text : List Char) :
    (boxlines H (layout font W H sx sy text)).length =
      (text.filter (fun c => c != ' ')).length ∧
    ∀ line ∈ boxlines H (layout font W H sx sy text),
      ∃ b ∈ (layout font W H sx sy text).boxes,
        line = write_boxline b.ch b.x0 b.y0 b.x1 b.y1 H b.page ∧
        line = spec_boxline b.ch b.x0 b.y0 b.x1 b.y1 H b.page := by
  constructor
  · rw [boxlines, List.length_map]
    exact layout_box_count font W H sx sy text
  · intro line hline
    simp only [boxlines] at hline
    obtain ⟨b, hb, rfl⟩ := List.mem_map.mp hline
    obtain ⟨hx, hy, -⟩ := (inv_layout font W H sx sy text).1 b hb
    exact ⟨b, hb, rfl, write_boxline_eq_spec b.ch b.x0 b.y0 H b.page b.x1 b.y1 hx hy⟩

/-- C4 (witness): the boxfile line emitted for the text `"A"` is
`"A 20 952 48 980 0"`, the rendering of the recorded box for `'A'`, and it
agrees with the spec-side corner description. -/
theorem C4_boxline_format_witness :
    ∃ b ∈ (layout (fun _ => (28, 28)) 1000 1000 20 20 ['A']).boxes,
      "A 20 952 48 980 0" = write_boxline b.ch b.x0 b.y0 b.x1 b.y1 1000 b.page ∧
      "A 20 952 48 980 0" = spec_boxline b.ch b.x0 b.y0 b.x1 b.y1 1000 b.page :=
  (C4_boxline_format (fun _ => (28, 28)) 1000 1000 20 20 ['A']).2
    "A 20 952 48 980 0" (by decide)

/-- C7: the canonical filename stem is a pure function of the dictionary
name, font name and experience number; the two independent computations in
`MultiPageTif.__init__` (via `'.'.join`) and `TesseractTrainer.__init__` (via
`%`-formatting) produce the identical string
`"{dictionary_name}.{font_name}.exp{exp_number}"`. -/
theorem C7_canonical_stem (d f : String) (n : Int) :
    tif_file_stem d f n = trainer_file_stem d f n ∧
    trainer_file_stem d f n = d ++ "." ++ f ++ ".exp" ++ toString n := by
  refine ⟨?_, rfl⟩
  show (d ++ ".") ++ ((f ++ ".") ++ ("exp" ++ toString n)) =
    ((d ++ "." ++ f) ++ ".exp") ++ toString n
  have e1 : ("." : String) ++ "exp" = ".exp" := rfl
  rw [← e1]
  simp only [string_append_assoc]

/-- C8: the constructor validation aborts with the source's descriptive
message, returning an error before any pipeline stage could run, in each of
the four configuration-error cases: font name containing a space, missing
font file, font name absent from the font-properties registry, and missing
tessdata directory (checked in that order). -/
theorem C8_config_errors (font_name font_path fpc fpp td : String)
    (fpe te : Bool) :
    (font_name.data.contains ' ' = true →
      trainer_init font_name font_path fpc fpp td fpe te =
        Except.error "The --font-name / -F argument must not contain any spaces. Aborting.") ∧
    (font_name.data.contains ' ' = false → fpe = false →
      trainer_init font_name font_path fpc fpp td fpe te =
        Except.error ("The " ++ font_path ++ " file does not exist. Aborting.")) ∧
    (font_name.data.contains ' ' = false → fpe = true →
      (py_split_ws fpc.data).contains font_name.data = false →
      trainer_init font_name font_path fpc fpp td fpe te =
        Except.error ("The font properties of " ++ font_name ++
          " have not been defined in " ++ fpp ++ ". Aborting.")) ∧
    (font_name.data.contains ' ' = false → fpe = true →
      (py_split_ws fpc.data).contains font_name.data = true → te = false →
      trainer_init font_name font_path fpc fpp td fpe te =
        Except.error ("The " ++ td ++ " directory does not exist. Aborting.")) := by
  refine ⟨fun h1 => ?_, fun h1 h2 => ?_, fun h1 h2 h3 => ?_,
    fun h1 h2 h3 h4 => ?_⟩
  · have h1' : ' ' ∈ font_name.data := by simpa using h1
    simp [trainer_init, h1']
  · have h1' : ' ' ∉ font_name.data := by simpa using h1
    simp [trainer_init, h1', h2]
  · have h1' : ' ' ∉ font_name.data := by simpa using h1
    have h3' : font_name.data ∉ py_split_ws fpc.data := by simpa using h3
    simp [trainer_init, h1', h2, h3']
  · have h1' : ' ' ∉ font_name.data := by simpa using h1
    have h3' : font_name.data ∈ py_split_ws fpc.data := by simpa using h3
    simp [trainer_init, h1', h2, h3', h4]

/-- C8 (witness): a font name containing a space is rejected with the
space-related message. -/
theorem C8_config_errors_witness :
    "a b".data.contains ' ' = true ∧
    trainer_init "a b" "f.ttf" "c" "font_properties" "/usr/share/tessdata"
        true true =
      Except.error "The --font-name / -F argument must not contain any spaces. Aborting." :=
  ⟨by decide,
   (C8_config_errors "a b" "f.ttf" "c" "font_properties" "/usr/share/tessdata"
     true true).1 (by decide)⟩

theorem data_append (a b : String) : (a ++ b).data = a.data ++ b.data := rfl

theorem getLast_data_append (a b : String) (hb : b.data ≠ []) :
    (a ++ b).data.getLast? = b.data.getLast? := by
  rw [data_append]
  exact List.getLast?_append_of_ne_nil _ hb

/-- C9: the DictionaryData stage issues a `wordlist2dawg` command only when a
word list is configured; without one it issues no command at all and `clean`
does not include `{dictionary_name}.freq-dawg` among the files it removes;
with a (nonempty) word list configured, the stage issues its command and
`clean` does remove `{dictionary_name}.freq-dawg`. -/
theorem C9_dictionary_stage (stem d : String) :
    (dictionary_data_cmds none d = [] ∧
      (d ++ ".freq-dawg") ∉ clean_removes stem d none) ∧
    (∀ wl : String, wl ≠ "" →
      dictionary_data_cmds (some wl) d ≠ [] ∧
      (d ++ ".freq-dawg") ∈ clean_removes stem d (some wl)) := by
  have hg : (d ++ ".freq-dawg").data.getLast? = some 'g' := by
    rw [getLast_data_append _ _ (by decide)]
    decide
  have hne : ∀ (a b : String), b.data ≠ [] → b.data.getLast? ≠ some 'g' →
      d ++ ".freq-dawg" ≠ a ++ b := by
    intro a b hb hbg he
    apply hbg
    rw [← getLast_data_append a b hb, ← he, hg]
  constructor
  · refine ⟨rfl, ?_⟩
    intro hmem
    simp only [clean_removes, py_truthy, Bool.false_eq_true, if_false,
      List.append_nil, List.nil_append, List.mem_append, List.mem_cons,
      List.not_mem_nil, or_false] at hmem
    rcases hmem with (h | h | h | h | h | h | h | h) | h
    · exact hne stem ".tr" (by decide) (by decide) h
    · exact hne stem ".txt" (by decide) (by decide) h
    · exact hne stem ".box" (by decide) (by decide) h
    · exact hne d ".inttemp" (by decide) (by decide) h
    · exact hne d ".Microfeat" (by decide) (by decide) h
    · exact hne d ".normproto" (by decide) (by decide) h
    · exact hne d ".pffmtable" (by decide) (by decide) h
    · exact hne d ".unicharset" (by decide) (by decide) h
    · have := hg
      rw [h] at this
      exact absurd this (by decide)
  · intro wl hwl
    have ht : py_truthy (some wl) = true := by simp [py_truthy, hwl]
    refine ⟨?_, ?_⟩
    · simp [dictionary_data_cmds, ht]
    · simp [clean_removes, ht]

/-- C9 (witness): with the word list `"words.txt"` and dictionary `"eng"`,
the stage issues its command and `clean` removes `eng.freq-dawg`. -/
theorem C9_dictionary_stage_witness :
    dictionary_data_cmds (some "words.txt") "eng" ≠ [] ∧
    ("eng" ++ ".freq-dawg") ∈ clean_removes "eng.font.exp0" "eng"
      (some "words.txt") :=
  (C9_dictionary_stage "eng.font.exp0" "eng").2 "words.txt" (by decide)
